import Mathlib

/-!
Verification of the core of the wudoovm repository ("new" Viua VM): the
64-bit instruction codec, the load-immediate (li) pseudo-instruction
expansion of `src/new/src/tools/asm.cpp`, the interpreter dispatch loop of
`src/new/src/tools/vm.cpp`, the relocation-table and entry-point stages of
`src/new/src/tools/exec/asm.cpp`, and the AA allocator instruction of
`src/new/src/vm/ins/aa.cpp`.

Machine integers are embedded as `Nat` with explicit `% 2 ^ 64` where
overflow matters.  The headers `viua/arch/arch.h` and `viua/arch/ops.h`
(register-access layout, instruction-word codec, opcode numbering) are not
present in the repository snapshot; the definitions below that replace them
are marked `Modelled from the spec:` and follow the specification text.
-/

namespace viua.arch

/-- Modelled from the spec: `viua/arch/arch.h` is absent from the snapshot.
Register access field (16 bits): a set index (LOCAL, plus the
argument/parameter sets), a direct/indirect bit, and an 8-bit register
index; a distinguished set encoding represents void (no register). -/
inductive REGISTER_SET where
  | LOCAL
  | ARGUMENT
  | PARAMETER
  | VOID
deriving DecidableEq, Repr

/-- Modelled from the spec: numeric tag of a register set, used by the
encoded 16-bit register-access field (the VOID tag is the distinguished
encoding of "no register"). -/
def REGISTER_SET.tag : REGISTER_SET → Nat
  | .LOCAL => 0
  | .ARGUMENT => 1
  | .PARAMETER => 2
  | .VOID => 3

/-- Modelled from the spec: register set recovered from its numeric tag;
unused tag values fall back to VOID so that decoding never traps. -/
def REGISTER_SET.of_tag : Nat → REGISTER_SET
  | 0 => .LOCAL
  | 1 => .ARGUMENT
  | 2 => .PARAMETER
  | _ => .VOID

/-- Modelled from the spec: the register access operand
(`viua::arch::Register_access`), as used by `asm.cpp` and `vm.cpp`
through `make_local`, `make_void`, `is_void`, and `index`. -/
structure Register_access where
  set : REGISTER_SET
  direct : Bool
  index : Nat
deriving DecidableEq, Repr

namespace Register_access

def make_local (index : Nat) : Register_access :=
  { set := .LOCAL, direct := true, index := index }

def make_void : Register_access :=
  { set := .VOID, direct := true, index := 0 }

def is_void (r : Register_access) : Bool :=
  r.set = .VOID

/-- Modelled from the spec: pack a register access into its 16-bit field
(index in bits 0-7, the direct bit at bit 8, the set tag from bit 9); the
fields occupy disjoint bit ranges, so bitwise or is written as addition. -/
def encode (r : Register_access) : Nat :=
  r.index % 2 ^ 8 + (if r.direct then 1 else 0) * 2 ^ 8 + r.set.tag * 2 ^ 9

/-- Modelled from the spec: unpack a 16-bit register-access field. -/
def decode (raw : Nat) : Register_access :=
  { set := REGISTER_SET.of_tag (raw / 2 ^ 9 % 2 ^ 3)
  , direct := raw / 2 ^ 8 % 2 == 1
  , index := raw % 2 ^ 8 }

/-- A register access as built by the assembler: 8-bit index. -/
def wf (r : Register_access) : Prop :=
  r.index < 2 ^ 8

instance (r : Register_access) : Decidable r.wf := by
  unfold Register_access.wf
  infer_instance

end Register_access

/-- 64-bit instruction words and 16-bit opcodes are embedded as `Nat`. -/
def instruction_type := Nat

namespace ops

/-- Modelled from the spec: the greedy bit is an overlay on the 16-bit
opcode (its highest bit). -/
def GREEDY : Nat := 0x8000

/-- Modelled from the spec: mask extracting the opcode proper (format and
number, without the greedy overlay) from an instruction word; the
interpreter dispatches greedy instructions exactly as their plain
versions, so the mask excludes the greedy bit. -/
def OPCODE_MASK : Nat := 0x7fff

/-- Modelled from the spec: the format tag lives in the high bits of the
opcode below the greedy overlay. -/
def FORMAT_MASK : Nat := 0x7000

/-- Modelled from the spec: numeric tags of the seven instruction formats
N, T, S, D, F, E, R. -/
def FORMAT_N : Nat := 0x0000
def FORMAT_T : Nat := 0x1000
def FORMAT_S : Nat := 0x2000
def FORMAT_D : Nat := 0x3000
def FORMAT_F : Nat := 0x4000
def FORMAT_E : Nat := 0x5000
def FORMAT_R : Nat := 0x6000

/-- Modelled from the spec: opcode numbers (format tag plus a small
per-format ordinal).  The concrete ordinals are not observable by any of
the verified properties; only the format tag of each opcode and the
distinctness of opcodes within a format matter. -/
def OPCODE_NOOP : Nat := 0x0000
def OPCODE_HALT : Nat := 0x0001
def OPCODE_EBREAK : Nat := 0x0002
def OPCODE_ADD : Nat := 0x1001
def OPCODE_SUB : Nat := 0x1002
def OPCODE_MUL : Nat := 0x1003
def OPCODE_DIV : Nat := 0x1004
def OPCODE_DELETE : Nat := 0x2001
def OPCODE_STRING : Nat := 0x2002
def OPCODE_FRAME : Nat := 0x2003
def OPCODE_ATOM : Nat := 0x2004
def OPCODE_CALL : Nat := 0x3001
def OPCODE_FLOAT : Nat := 0x4001
def OPCODE_LUI : Nat := 0x5001
def OPCODE_LUIU : Nat := 0x5002
def OPCODE_ADDI : Nat := 0x6001
def OPCODE_ADDIU : Nat := 0x6002

/-- Format N: no operands (`viua::arch::ops::N`). -/
structure N where
  opcode : Nat
deriving DecidableEq, Repr

/-- Format T: three register accesses (`viua::arch::ops::T`). -/
structure T where
  opcode : Nat
  out : Register_access
  lhs : Register_access
  rhs : Register_access
deriving DecidableEq, Repr

/-- Format D: two register accesses (`viua::arch::ops::D`). -/
structure D where
  opcode : Nat
  out : Register_access
  in_r : Register_access
deriving DecidableEq, Repr

/-- Format S: one register access (`viua::arch::ops::S`). -/
structure S where
  opcode : Nat
  out : Register_access
deriving DecidableEq, Repr

/-- Format F: one register access and a 32-bit immediate, used as the
half-of-a-64-bit-literal carrier (`viua::arch::ops::F`). -/
structure F where
  opcode : Nat
  out : Register_access
  immediate : Nat
deriving DecidableEq, Repr

/-- Format E: one register access and a 36-bit immediate
(`viua::arch::ops::E`). -/
structure E where
  opcode : Nat
  out : Register_access
  immediate : Nat
deriving DecidableEq, Repr

/-- Format R: two register accesses and a 24-bit immediate
(`viua::arch::ops::R`). -/
structure R where
  opcode : Nat
  out : Register_access
  in_r : Register_access
  immediate : Nat
deriving DecidableEq, Repr

/-- Modelled from the spec: encoding of an N-format word: just the 16-bit
opcode (with its greedy overlay) in the low bits. -/
def N.encode (i : N) : Nat :=
  i.opcode % 2 ^ 16

/-- Modelled from the spec: N-format decoding. -/
def N.decode (raw : Nat) : N :=
  { opcode := raw % 2 ^ 16 }

/-- Modelled from the spec: T-format layout: opcode in bits 0-15, the
three 16-bit register accesses at bits 16, 32 and 48.  All fields are
disjoint, so bitwise or is written as addition. -/
def T.encode (i : T) : Nat :=
  i.opcode % 2 ^ 16 + i.out.encode * 2 ^ 16 + i.lhs.encode * 2 ^ 32
    + i.rhs.encode * 2 ^ 48

/-- Modelled from the spec: T-format decoding. -/
def T.decode (raw : Nat) : T :=
  { opcode := raw % 2 ^ 16
  , out := Register_access.decode (raw / 2 ^ 16 % 2 ^ 16)
  , lhs := Register_access.decode (raw / 2 ^ 32 % 2 ^ 16)
  , rhs := Register_access.decode (raw / 2 ^ 48 % 2 ^ 16) }

/-- Modelled from the spec: D-format layout: opcode, then two 16-bit
register accesses. -/
def D.encode (i : D) : Nat :=
  i.opcode % 2 ^ 16 + i.out.encode * 2 ^ 16 + i.in_r.encode * 2 ^ 32

/-- Modelled from the spec: D-format decoding. -/
def D.decode (raw : Nat) : D :=
  { opcode := raw % 2 ^ 16
  , out := Register_access.decode (raw / 2 ^ 16 % 2 ^ 16)
  , in_r := Register_access.decode (raw / 2 ^ 32 % 2 ^ 16) }

/-- Modelled from the spec: S-format layout: opcode, then one 16-bit
register access. -/
def S.encode (i : S) : Nat :=
  i.opcode % 2 ^ 16 + i.out.encode * 2 ^ 16

/-- Modelled from the spec: S-format decoding. -/
def S.decode (raw : Nat) : S :=
  { opcode := raw % 2 ^ 16
  , out := Register_access.decode (raw / 2 ^ 16 % 2 ^ 16) }

/-- Modelled from the spec: F-format layout: opcode, one 16-bit register
access, and a 32-bit immediate in the high half of the word. -/
def F.encode (i : F) : Nat :=
  i.opcode % 2 ^ 16 + i.out.encode * 2 ^ 16 + i.immediate % 2 ^ 32 * 2 ^ 32

/-- Modelled from the spec: F-format decoding. -/
def F.decode (raw : Nat) : F :=
  { opcode := raw % 2 ^ 16
  , out := Register_access.decode (raw / 2 ^ 16 % 2 ^ 16)
  , immediate := raw / 2 ^ 32 % 2 ^ 32 }

/-- Modelled from the spec: E-format layout: opcode, one register access
(whose 16-bit field only ever uses its low 12 bits), and a 36-bit
immediate in bits 28-63. -/
def E.encode (i : E) : Nat :=
  i.opcode % 2 ^ 16 + i.out.encode * 2 ^ 16 + i.immediate % 2 ^ 36 * 2 ^ 28

/-- Modelled from the spec: E-format decoding. -/
def E.decode (raw : Nat) : E :=
  { opcode := raw % 2 ^ 16
  , out := Register_access.decode (raw / 2 ^ 16 % 2 ^ 12)
  , immediate := raw / 2 ^ 28 % 2 ^ 36 }

/-- Modelled from the spec: R-format layout: opcode, two register
accesses packed in 12 bits each (bits 16-27 and 28-39), and a 24-bit
immediate in bits 40-63. -/
def R.encode (i : R) : Nat :=
  i.opcode % 2 ^ 16 + i.out.encode * 2 ^ 16 + i.in_r.encode * 2 ^ 28
    + i.immediate % 2 ^ 24 * 2 ^ 40

/-- Modelled from the spec: R-format decoding. -/
def R.decode (raw : Nat) : R :=
  { opcode := raw % 2 ^ 16
  , out := Register_access.decode (raw / 2 ^ 16 % 2 ^ 12)
  , in_r := Register_access.decode (raw / 2 ^ 28 % 2 ^ 12)
  , immediate := raw / 2 ^ 40 % 2 ^ 24 }

end ops

end viua.arch

/-- `to_loading_parts_unsigned` from `src/new/src/tools/asm.cpp`: split a
64-bit value into `(high_part, ((base, multiplier), remainder))`.  The
`static_cast<uint32_t>` on the low part cannot truncate because the mask
`~HIGH_36` keeps only 28 bits (`~0xfffffffff0000000 = 0x0fffffff` as a
64-bit value). -/
def to_loading_parts_unsigned (value : Nat) : Nat × ((Nat × Nat) × Nat) :=
  let LOW_24 : Nat := 0x0000000000ffffff
  let HIGH_36 : Nat := 0xfffffffff0000000
  let high_part := (value &&& HIGH_36) >>> 28
  let low_part := value &&& 0x0fffffff
  if low_part &&& LOW_24 = low_part then
    (high_part, ((low_part, 0), 0))
  else
    let multiplier := 16
    let remainder := low_part % multiplier
    let base := (low_part - remainder) / multiplier
    (high_part, ((base, multiplier), remainder))

namespace viua.arch

open ops

/-- The unsigned `op_li` overload of `src/new/src/tools/asm.cpp`: the list
of instruction words written through the `instructions` cursor for a
64-bit value (LUIU only when some of the high 36 bits are set, then
either the six-instruction multiply-and-add sequence or a single
ADDIU). -/
def op_li_unsigned (value : Nat) : List Nat :=
  let parts := to_loading_parts_unsigned value
  let lui :=
    if parts.1 ≠ 0 then
      [E.encode
        { opcode := GREEDY ||| OPCODE_LUIU
        , out := Register_access.make_local 1
        , immediate := parts.1 }]
    else []
  let base := parts.2.1.1
  let multiplier := parts.2.1.2
  if multiplier ≠ 0 then
    lui ++
    [ R.encode
        { opcode := GREEDY ||| OPCODE_ADDIU
        , out := Register_access.make_local 2
        , in_r := Register_access.make_void
        , immediate := base }
    , R.encode
        { opcode := GREEDY ||| OPCODE_ADDIU
        , out := Register_access.make_local 3
        , in_r := Register_access.make_void
        , immediate := multiplier }
    , T.encode
        { opcode := GREEDY ||| OPCODE_MUL
        , out := Register_access.make_local 2
        , lhs := Register_access.make_local 2
        , rhs := Register_access.make_local 3 }
    , R.encode
        { opcode := GREEDY ||| OPCODE_ADDIU
        , out := Register_access.make_local 3
        , in_r := Register_access.make_void
        , immediate := parts.2.2 }
    , T.encode
        { opcode := GREEDY ||| OPCODE_ADD
        , out := Register_access.make_local 2
        , lhs := Register_access.make_local 2
        , rhs := Register_access.make_local 3 }
    , T.encode
        { opcode := OPCODE_ADD
        , out := Register_access.make_local 1
        , lhs := Register_access.make_local 1
        , rhs := Register_access.make_local 2 } ]
  else
    lui ++
    [ R.encode
        { opcode := OPCODE_ADDIU
        , out := Register_access.make_local 1
        , in_r := Register_access.make_void
        , immediate := base } ]

/-- The signed `op_li` overload of `src/new/src/tools/asm.cpp`: identical
shape, but with LUI/ADDI in place of LUIU/ADDIU.  `value` is the 64-bit
bit pattern of the `int64_t` argument (the conversion to `uint64_t`
inside `to_loading_parts_unsigned` is the identity on bit patterns). -/
def op_li_signed (value : Nat) : List Nat :=
  let parts := to_loading_parts_unsigned value
  let lui :=
    if parts.1 ≠ 0 then
      [E.encode
        { opcode := GREEDY ||| OPCODE_LUI
        , out := Register_access.make_local 1
        , immediate := parts.1 }]
    else []
  let base := parts.2.1.1
  let multiplier := parts.2.1.2
  if multiplier ≠ 0 then
    lui ++
    [ R.encode
        { opcode := GREEDY ||| OPCODE_ADDI
        , out := Register_access.make_local 2
        , in_r := Register_access.make_void
        , immediate := base }
    , R.encode
        { opcode := GREEDY ||| OPCODE_ADDI
        , out := Register_access.make_local 3
        , in_r := Register_access.make_void
        , immediate := multiplier }
    , T.encode
        { opcode := GREEDY ||| OPCODE_MUL
        , out := Register_access.make_local 2
        , lhs := Register_access.make_local 2
        , rhs := Register_access.make_local 3 }
    , R.encode
        { opcode := GREEDY ||| OPCODE_ADDI
        , out := Register_access.make_local 3
        , in_r := Register_access.make_void
        , immediate := parts.2.2 }
    , T.encode
        { opcode := GREEDY ||| OPCODE_ADD
        , out := Register_access.make_local 2
        , lhs := Register_access.make_local 2
        , rhs := Register_access.make_local 3 }
    , T.encode
        { opcode := OPCODE_ADD
        , out := Register_access.make_local 1
        , lhs := Register_access.make_local 1
        , rhs := Register_access.make_local 2 } ]
  else
    lui ++
    [ R.encode
        { opcode := OPCODE_ADDI
        , out := Register_access.make_local 1
        , in_r := Register_access.make_void
        , immediate := base } ]

end viua.arch

namespace machine

open viua.arch

/-- `Value::Unboxed_type` from `src/new/src/tools/vm.cpp`. -/
inductive Unboxed_type where
  | Void
  | Byte
  | Integer_signed
  | Integer_unsigned
  | Float_single
  | Float_double
deriving DecidableEq, BEq, Repr

/-- The `std::variant<uint64_t, void*>` payload of a `Value`: either the
unboxed 64-bit word or a boxed owner handle. -/
inductive Payload where
  | unboxed (v : Nat)
  | boxed (h : Nat)
deriving DecidableEq, BEq, Repr

/-- `struct Value` from `src/new/src/tools/vm.cpp`: a type tag plus a
payload. -/
structure Value where
  type_of_unboxed : Unboxed_type
  value : Payload
deriving DecidableEq, BEq, Repr

def Value.is_boxed (v : Value) : Bool :=
  match v.value with
  | .boxed _ => true
  | .unboxed _ => false

def Value.is_void (v : Value) : Bool :=
  !v.is_boxed && v.type_of_unboxed == .Void

/-- The register file: `std::vector<Value>(256)` is embedded as a total
map from register index to `Value` (all accesses go through 8-bit decoded
indexes, so only indexes below 256 are ever touched). -/
def Regs := Nat → Value

/-- Write one register slot, leaving every other slot untouched. -/
def Regs.upd (registers : Regs) (i : Nat) (v : Value) : Regs :=
  fun j => if j = i then v else registers j

/-- The freshly constructed register file: 256 value-initialized slots,
each Void with a zero unboxed payload. -/
def clean_regs : Regs :=
  fun _ => { type_of_unboxed := .Void, value := .unboxed 0 }

/-- What one dispatch step reports back to the loop, separating the three
observationally distinct exits of `machine::core::ins::execute`: a normal
`ip + 1` return, the null sentinel from HALT, and the null sentinel
preceded by an unimplemented-instruction log (or a thrown `std::get`
error escaping an executor). -/
inductive Outcome where
  | next
  | halted
  | fault
deriving DecidableEq, BEq, Repr

namespace core.ins

/-- `execute(std::vector<Value>&, ADD)`: the out slot's tag is assigned
before the payloads are read, so a boxed operand faults with the tag
already overwritten. -/
def execute_ADD (registers : Regs) (op : ops.T) : Regs × Outcome :=
  let lhs := registers op.lhs.index
  let rhs := registers op.rhs.index
  let regs1 := registers.upd op.out.index
    { registers op.out.index with type_of_unboxed := lhs.type_of_unboxed }
  match lhs.value, rhs.value with
  | .unboxed a, .unboxed b =>
    (regs1.upd op.out.index
      { regs1 op.out.index with value := .unboxed ((a + b) % 2 ^ 64) }, .next)
  | _, _ => (regs1, .fault)

/-- `execute(std::vector<Value>&, MUL)`. -/
def execute_MUL (registers : Regs) (op : ops.T) : Regs × Outcome :=
  let lhs := registers op.lhs.index
  let rhs := registers op.rhs.index
  let regs1 := registers.upd op.out.index
    { registers op.out.index with type_of_unboxed := lhs.type_of_unboxed }
  match lhs.value, rhs.value with
  | .unboxed a, .unboxed b =>
    (regs1.upd op.out.index
      { regs1 op.out.index with value := .unboxed ((a * b) % 2 ^ 64) }, .next)
  | _, _ => (regs1, .fault)

/-- `execute(std::vector<Value>&, DIV)`: same shape as ADD with `/`; a
zero divisor is undefined behaviour in the C++ (a crash in practice), so
it is mapped to a fault.  Note that the FORMAT::T dispatch switch never
reaches this executor. -/
def execute_DIV (registers : Regs) (op : ops.T) : Regs × Outcome :=
  let lhs := registers op.lhs.index
  let rhs := registers op.rhs.index
  let regs1 := registers.upd op.out.index
    { registers op.out.index with type_of_unboxed := lhs.type_of_unboxed }
  match lhs.value, rhs.value with
  | .unboxed a, .unboxed b =>
    if b = 0 then (regs1, .fault)
    else (regs1.upd op.out.index
      { regs1 op.out.index with value := .unboxed (a / b) }, .next)
  | _, _ => (regs1, .fault)

/-- `execute(std::vector<Value>&, DELETE)`: reset the slot to Void with a
zero payload. -/
def execute_DELETE (registers : Regs) (op : ops.S) : Regs × Outcome :=
  (registers.upd op.out.index
    { type_of_unboxed := .Void, value := .unboxed 0 }, .next)

/-- `execute(std::vector<Value>&, LUI)`: `out = imm << 28`, tagged
signed. -/
def execute_LUI (registers : Regs) (op : ops.E) : Regs × Outcome :=
  (registers.upd op.out.index
    { type_of_unboxed := .Integer_signed
    , value := .unboxed (op.immediate <<< 28 % 2 ^ 64) }, .next)

/-- `execute(std::vector<Value>&, LUIU)`: `out = imm << 28`, tagged
unsigned. -/
def execute_LUIU (registers : Regs) (op : ops.E) : Regs × Outcome :=
  (registers.upd op.out.index
    { type_of_unboxed := .Integer_unsigned
    , value := .unboxed (op.immediate <<< 28 % 2 ^ 64) }, .next)

/-- The `base` read of ADDI/ADDIU: zero for a void input access,
otherwise the unboxed payload of the input register; a boxed input makes
`std::get<uint64_t>` throw, which is `none` here. -/
def addi_base (registers : Regs) (in_r : Register_access) : Option Nat :=
  if in_r.is_void then some 0
  else
    match (registers in_r.index).value with
    | .unboxed v => some v
    | .boxed _ => none

/-- `execute(std::vector<Value>&, ADDI)`: `out = base + imm`, tagged
signed; the throw from a boxed input happens before any mutation. -/
def execute_ADDI (registers : Regs) (op : ops.R) : Regs × Outcome :=
  match addi_base registers op.in_r with
  | none => (registers, .fault)
  | some base =>
    (registers.upd op.out.index
      { type_of_unboxed := .Integer_signed
      , value := .unboxed ((base + op.immediate) % 2 ^ 64) }, .next)

/-- `execute(std::vector<Value>&, ADDIU)`: `out = base + imm`, tagged
unsigned. -/
def execute_ADDIU (registers : Regs) (op : ops.R) : Regs × Outcome :=
  match addi_base registers op.in_r with
  | none => (registers, .fault)
  | some base =>
    (registers.upd op.out.index
      { type_of_unboxed := .Integer_unsigned
      , value := .unboxed ((base + op.immediate) % 2 ^ 64) }, .next)

/-- The register dump printed by EBREAK: every non-void slot with its
index, in register order.  Reading is the only thing EBREAK does with the
register file. -/
def ebreak_dump (registers : Regs) : List (Nat × Value) :=
  (List.range 256).filterMap fun i =>
    if (registers i).is_void then none else some (i, registers i)

/-- `execute(std::vector<Value>&, EBREAK)`: print the dump; the register
file is returned untouched. -/
def execute_EBREAK (registers : Regs) : Regs × List (Nat × Value) :=
  (registers, ebreak_dump registers)

/-- The per-word dispatcher
`machine::core::ins::execute(std::vector<Value>&, instruction_type const*)`
of `src/new/src/tools/vm.cpp`: extract opcode and format, decode by
format, dispatch by opcode.  The E, R and N switches have no default
case, so an unknown opcode of those formats falls through to the normal
`ip + 1` return; the T and S defaults and the D/F formats log an
unimplemented instruction and return the null sentinel. -/
def execute (registers : Regs) (raw : Nat) : Regs × Outcome :=
  let opcode := raw &&& ops.OPCODE_MASK
  let format := opcode &&& ops.FORMAT_MASK
  if format = ops.FORMAT_T then
    let instruction := ops.T.decode raw
    if opcode = ops.OPCODE_ADD then execute_ADD registers instruction
    else if opcode = ops.OPCODE_MUL then execute_MUL registers instruction
    else (registers, .fault)
  else if format = ops.FORMAT_S then
    let instruction := ops.S.decode raw
    if opcode = ops.OPCODE_DELETE then execute_DELETE registers instruction
    else (registers, .fault)
  else if format = ops.FORMAT_E then
    let instruction := ops.E.decode raw
    if opcode = ops.OPCODE_LUI then execute_LUI registers instruction
    else if opcode = ops.OPCODE_LUIU then execute_LUIU registers instruction
    else (registers, .next)
  else if format = ops.FORMAT_R then
    let instruction := ops.R.decode raw
    if opcode = ops.OPCODE_ADDI then execute_ADDI registers instruction
    else if opcode = ops.OPCODE_ADDIU then execute_ADDIU registers instruction
    else (registers, .next)
  else if format = ops.FORMAT_N then
    if opcode = ops.OPCODE_NOOP then (registers, .next)
    else if opcode = ops.OPCODE_HALT then (registers, .halted)
    else if opcode = ops.OPCODE_EBREAK then
      ((execute_EBREAK registers).1, .next)
    else (registers, .next)
  else if format = ops.FORMAT_D then (registers, .fault)
  else if format = ops.FORMAT_F then (registers, .fault)
  else (registers, .next)

end core.ins

/-- `run_instruction` from `src/new/src/tools/vm.cpp`: execute the word
under the instruction pointer and keep going while the executed word had
the greedy bit and the dispatcher kept returning a non-null pointer.
`none` is the null sentinel.  The instruction pointer is an index into
`text`; the fuel argument only bounds the recursion and any fuel larger
than the greedy run's length gives the loop's exact behaviour. -/
def run_instruction (text : List Nat) (registers : Regs) (ip : Nat) :
    Nat → Regs × Option Nat
  | 0 => (registers, some ip)
  | fuel + 1 =>
    let instruction := text.getD ip 0
    let step := core.ins.execute registers instruction
    match step.2 with
    | .next =>
      if instruction &&& viua.arch.ops.GREEDY ≠ 0 then
        run_instruction text step.1 (ip + 1) fuel
      else (step.1, some (ip + 1))
    | .halted => (step.1, none)
    | .fault => (step.1, none)

end machine

namespace stage

open viua.arch

/-- `Elf64_Rel` as used by `stage::make_reloc_table`: a byte offset into
`.text` and the packed info word. -/
structure Elf64_Rel where
  r_offset : Nat
  r_info : Nat
deriving DecidableEq, Repr

/-- `ELF64_R_INFO(sym, type)` from `<elf.h>`: `(sym << 32) + type`. -/
def ELF64_R_INFO (sym typ : Nat) : Nat :=
  sym * 2 ^ 32 + typ

/-- Modelled from the spec: the two relocation kinds of
`viua::arch::elf::R_VIUA` (the header is absent from the snapshot):
JUMP_SLOT for calls and OBJECT for atom/literal addresses. -/
def R_VIUA_JUMP_SLOT : Nat := 1
def R_VIUA_OBJECT : Nat := 2

/-- One iteration of the `stage::make_reloc_table` scan of
`src/new/src/tools/exec/asm.cpp` at index `i`: a CALL or ATOM opcode
produces one relocation whose offset is two instruction words before it
and whose symbol index is recovered from the two preceding F-format
words; `(hi | lo)` is truncated by `static_cast<uint32_t>`.  Any other
opcode produces nothing.  (`text.at(i - 2)` in the C++ throws when
`i < 2`; cooked instruction streams always precede CALL/ATOM with the two
F-format carrier words, so the claims below are stated for such
streams.) -/
def reloc_at (text : List Nat) (i : Nat) : Option Elf64_Rel :=
  let each := text.getD i 0
  let op := each &&& ops.OPCODE_MASK
  if op = ops.OPCODE_CALL then
    let hi := (ops.F.decode (text.getD (i - 2) 0)).immediate <<< 32
    let lo := (ops.F.decode (text.getD (i - 1) 0)).immediate
    let symtab_entry_index := (hi ||| lo) % 2 ^ 32
    some { r_offset := (i - 2) * 8
         , r_info := ELF64_R_INFO symtab_entry_index R_VIUA_JUMP_SLOT }
  else if op = ops.OPCODE_ATOM then
    let hi := (ops.F.decode (text.getD (i - 2) 0)).immediate <<< 32
    let lo := (ops.F.decode (text.getD (i - 1) 0)).immediate
    let symtab_entry_index := (hi ||| lo) % 2 ^ 32
    some { r_offset := (i - 2) * 8
         , r_info := ELF64_R_INFO symtab_entry_index R_VIUA_OBJECT }
  else none

/-- `stage::make_reloc_table`: scan the emitted text in index order and
collect the relocations. -/
def make_reloc_table (text : List Nat) : List Elf64_Rel :=
  (List.range text.length).filterMap (reloc_at text)

/-- Modelled from the spec: a function definition node of the assembler's
AST (`viua::libs::parser::ast::Fn_def`; the parser headers are absent
from the snapshot), reduced to what `stage::find_entry_point` consults:
the function's name and its attribute list. -/
structure Fn_def where
  name : String
  attrs : List String
deriving DecidableEq, Repr

/-- `has_attr` on an AST node. -/
def Fn_def.has_attr (fn : Fn_def) (attr : String) : Bool :=
  fn.attrs.contains attr

/-- The fatal diagnostic raised for a duplicated entry point, carrying
the name of the duplicate and the name of the first entry point (the
`Error{dup.name, Cause::Duplicated_entry_point, ...}` value that
`display_error_and_exit` reports before terminating with no output). -/
structure Duplicated_entry_point where
  duplicate : String
  first : String
deriving DecidableEq, Repr

/-- The loop body of `stage::find_entry_point`: walk the nodes carrying
the entry point found so far; a second `entry_point` attribute is a fatal
diagnostic. -/
def find_entry_point_from (entry_point_fn : Option String) :
    List Fn_def → Except Duplicated_entry_point (Option String)
  | [] => .ok entry_point_fn
  | each :: rest =>
    if each.has_attr "entry_point" then
      match entry_point_fn with
      | some first => .error { duplicate := each.name, first := first }
      | none => find_entry_point_from (some each.name) rest
    else find_entry_point_from entry_point_fn rest

/-- `stage::find_entry_point` of `src/new/src/tools/exec/asm.cpp`. -/
def find_entry_point (nodes : List Fn_def) :
    Except Duplicated_entry_point (Option String) :=
  find_entry_point_from none nodes

end stage

namespace viua.vm.ins

/-- Modelled from the spec: the value held by one register of the newer
VM core (`viua::vm::Value`; the header is absent from the snapshot).
`AA` only distinguishes whether the slot holds an unsigned 64-bit value,
so the remaining shapes are collapsed into their tags. -/
inductive Cell where
  | void
  | unsigned (v : Nat)
  | signed (v : Nat)
  | boxed (h : Nat)
deriving DecidableEq, Repr

/-- Modelled from the spec: `.get<uint64_t>()` on a fetched operand
yields a value only when the slot holds an unsigned 64-bit integer. -/
def Cell.get_u64 : Cell → Option Nat
  | .unsigned v => some v
  | _ => none

/-- A pointer record pushed by AA (`struct Pointer`, reduced to the
address AA stores in it). -/
structure Pointer where
  ptr : Nat
deriving DecidableEq, Repr

/-- The per-frame state AA touches: the saved stack-break watermark and
the frame's registers. -/
structure Frame where
  saved_sbrk : Nat
  registers : Nat → Cell

/-- The per-process state AA touches. -/
structure Proc where
  stack_break : Nat
  pointers : List Pointer

/-- The stack handed to `viua::vm::ins::execute(AA, ...)`: the owning
process and the current (innermost) frame. -/
structure Stack where
  proc : Proc
  frame : Frame

/-- The AA instruction's decoded operands: an output register access, an
input register access, and the alignment specifier (unused by the
executor). -/
structure AA where
  out : viua.arch.Register_access
  in_r : viua.arch.Register_access
  spec : Nat
deriving DecidableEq, Repr

/-- Modelled from the spec: `fetch_proxy` reads the operand's register
from the current frame (a void access reads no register and yields a void
value). -/
def fetch_proxy (stack : Stack) (acc : viua.arch.Register_access) : Cell :=
  if acc.is_void then .void else stack.frame.registers acc.index

/-- The thrown `abort_execution`: the instruction pointer and the
message. -/
structure abort_execution where
  ip : Nat
  message : String
deriving DecidableEq, Repr

/-- `viua::vm::ins::execute(AA, ...)` from `src/new/src/vm/ins/aa.cpp`:
fetch the allocation size from the input register; if it is not an
unsigned 64-bit value, throw before touching anything; otherwise advance
the process's stack break, mirror it into the frame's saved watermark,
write the previous break into the output register, and record the
pointer.  The state is returned alongside the optional abort, mirroring
mutation of the C++ `Stack&` up to the throw point. -/
def execute_AA (stack : Stack) (op : AA) (ip : Nat) :
    Stack × Option abort_execution :=
  let size := (fetch_proxy stack op.in_r).get_u64
  match size with
  | none =>
    (stack, some { ip := ip, message := "invalid operand type for aa instruction" })
  | some sz =>
    let pointer_address := stack.proc.stack_break
    let stack_break := (stack.proc.stack_break + sz) % 2 ^ 64
    let frame :=
      { saved_sbrk := stack_break
      , registers := fun j =>
          if j = op.out.index then .unsigned pointer_address
          else stack.frame.registers j }
    let proc :=
      { stack_break := stack_break
      , pointers := stack.proc.pointers ++ [{ ptr := pointer_address }] }
    ({ proc := proc, frame := frame }, none)

end viua.vm.ins

namespace machine

/-- No register slot holds a boxed value.  Every value the executors
write is unboxed, so this is an invariant of execution, and under it no
executor reachable from dispatch can throw. -/
def all_unboxed (registers : Regs) : Prop :=
  ∀ i, (registers i).is_boxed = false

namespace core.ins

/-- The outcome of one dispatch step as a function of the instruction
word alone.  On an all-unboxed register file `execute` returns exactly
this outcome: the word's format and opcode decide whether the step
continues, halts, or logs an unimplemented instruction. -/
def outcome_of (raw : Nat) : Outcome :=
  let opcode := raw &&& viua.arch.ops.OPCODE_MASK
  let format := opcode &&& viua.arch.ops.FORMAT_MASK
  if format = viua.arch.ops.FORMAT_T then
    if opcode = viua.arch.ops.OPCODE_ADD then .next
    else if opcode = viua.arch.ops.OPCODE_MUL then .next
    else .fault
  else if format = viua.arch.ops.FORMAT_S then
    if opcode = viua.arch.ops.OPCODE_DELETE then .next
    else .fault
  else if format = viua.arch.ops.FORMAT_E then .next
  else if format = viua.arch.ops.FORMAT_R then .next
  else if format = viua.arch.ops.FORMAT_N then
    if opcode = viua.arch.ops.OPCODE_NOOP then .next
    else if opcode = viua.arch.ops.OPCODE_HALT then .halted
    else .next
  else if format = viua.arch.ops.FORMAT_D then .fault
  else if format = viua.arch.ops.FORMAT_F then .fault
  else .next

end core.ins

end machine

namespace stage

/-- The relocation table as section 4.6 stage 7 of the spec describes
it, with the symbol-table index amended to its low 32 bits: scanning the
emitted stream, wherever a CALL or ATOM instruction appears at index
`i`, the two preceding F-format words hold the upper and lower 32-bit
halves of a symbol-table index, and one relocation is emitted at byte
offset `8 * (i - 2)` of kind JUMP_SLOT for a CALL and OBJECT for an
ATOM. -/
def reloc_table_spec (text : List Nat) : List Elf64_Rel :=
  (List.range text.length).filterMap fun i =>
    let op := text.getD i 0 &&& viua.arch.ops.OPCODE_MASK
    if op = viua.arch.ops.OPCODE_CALL ∨ op = viua.arch.ops.OPCODE_ATOM then
      some { r_offset := 8 * (i - 2)
           , r_info := ELF64_R_INFO
               (((viua.arch.ops.F.decode (text.getD (i - 2) 0)).immediate
                   * 2 ^ 32
                 + (viua.arch.ops.F.decode (text.getD (i - 1) 0)).immediate)
                 % 2 ^ 32)
               (if op = viua.arch.ops.OPCODE_CALL then R_VIUA_JUMP_SLOT
                else R_VIUA_OBJECT) }
    else none

end stage

theorem tlp_land_high (v : Nat) (hv : v < 2 ^ 64) :
    (v &&& 0xfffffffff0000000) >>> 28 = v / 2 ^ 28 := by
  have hmask : (0xfffffffff0000000 : Nat) = (2 ^ 36 - 1) <<< 28 := by decide
  rw [hmask, ← Nat.shiftRight_eq_div_pow]
  apply Nat.eq_of_testBit_eq
  intro i
  simp only [Nat.testBit_shiftRight, Nat.testBit_and, Nat.testBit_shiftLeft,
    Nat.testBit_two_pow_sub_one]
  have h28 : 28 ≤ 28 + i := Nat.le_add_right 28 i
  simp only [h28, decide_True, Bool.true_and, Nat.add_sub_cancel_left]
  rcases Nat.lt_or_ge i 36 with hi | hi
  · simp [hi]
  · have hbig : v < 2 ^ (28 + i) :=
      lt_of_lt_of_le hv (Nat.pow_le_pow_right (by norm_num) (by omega))
    simp [Nat.testBit_lt_two_pow hbig, Nat.not_lt.mpr hi]

theorem tlp_land_low (v : Nat) : v &&& 0x0fffffff = v % 2 ^ 28 := by
  have h : (0x0fffffff : Nat) = 2 ^ 28 - 1 := by decide
  rw [h, Nat.and_pow_two_sub_one_eq_mod]

theorem tlp_or_recompose (v : Nat) : (v / 2 ^ 28) <<< 28 ||| v % 2 ^ 28 = v := by
  have hor := Nat.mul_add_lt_is_or (i := 28)
    (Nat.mod_lt v (by norm_num : (0:Nat) < 2 ^ 28)) (v / 2 ^ 28)
  rw [Nat.shiftLeft_eq, Nat.mul_comm (v / 2 ^ 28) (2 ^ 28), ← hor]
  exact Nat.div_add_mod v (2 ^ 28)

/-- Arithmetic characterization of `to_loading_parts_unsigned` for 64-bit
inputs: the high part is the top 36 bits, and the low 28 bits are either
returned whole (when they fit in 24 bits) or split as
`base * 16 + remainder`. -/
theorem tlp_eq (v : Nat) (hv : v < 2 ^ 64) :
    to_loading_parts_unsigned v =
      if v % 2 ^ 28 < 2 ^ 24
      then (v / 2 ^ 28, ((v % 2 ^ 28, 0), 0))
      else (v / 2 ^ 28, ((v % 2 ^ 28 / 16, 16), v % 2 ^ 28 % 16)) := by
  have hlow24 : ∀ x : Nat, x &&& 0x0000000000ffffff = x % 2 ^ 24 := by
    intro x
    have h : (0x0000000000ffffff : Nat) = 2 ^ 24 - 1 := by decide
    rw [h, Nat.and_pow_two_sub_one_eq_mod]
  have hcond : (v % 2 ^ 28 % 2 ^ 24 = v % 2 ^ 28) ↔ v % 2 ^ 28 < 2 ^ 24 := by
    omega
  have hbase : (v % 2 ^ 28 - v % 2 ^ 28 % 16) / 16 = v % 2 ^ 28 / 16 := by
    have h := Nat.div_add_mod (v % 2 ^ 28) 16
    have h2 : v % 2 ^ 28 - v % 2 ^ 28 % 16 = 16 * (v % 2 ^ 28 / 16) := by omega
    rw [h2, Nat.mul_div_cancel_left _ (by norm_num : (0:Nat) < 16)]
  simp only [to_loading_parts_unsigned, tlp_land_high v hv, tlp_land_low,
    hlow24, hbase]
  by_cases h : v % 2 ^ 28 < 2 ^ 24
  · rw [if_pos (hcond.mpr h), if_pos h]
  · rw [if_neg (fun hx => h (hcond.mp hx)), if_neg h]

/-- C2. For every 64-bit unsigned value `v`, the decomposition
`(high_part, ((base, multiplier), remainder))` computed by
`to_loading_parts_unsigned` satisfies
`(high_part <<< 28) ||| (base * multiplier + remainder) = v` when the
multiplier is non-zero and `(high_part <<< 28) ||| base = v` when it is
zero. -/
theorem to_loading_parts_unsigned_reconstructs (v : Nat) (hv : v < 2 ^ 64) :
    (to_loading_parts_unsigned v).1 <<< 28 |||
      (if (to_loading_parts_unsigned v).2.1.2 ≠ 0
       then (to_loading_parts_unsigned v).2.1.1 * (to_loading_parts_unsigned v).2.1.2
         + (to_loading_parts_unsigned v).2.2
       else (to_loading_parts_unsigned v).2.1.1) = v := by
  rw [tlp_eq v hv]
  by_cases h : v % 2 ^ 28 < 2 ^ 24
  · rw [if_pos h]
    show (v / 2 ^ 28) <<< 28
      ||| (if (0:Nat) ≠ 0 then v % 2 ^ 28 * 0 + 0 else v % 2 ^ 28) = v
    rw [if_neg (by norm_num)]
    exact tlp_or_recompose v
  · rw [if_neg h]
    show (v / 2 ^ 28) <<< 28
      ||| (if (16:Nat) ≠ 0
           then v % 2 ^ 28 / 16 * 16 + v % 2 ^ 28 % 16
           else v % 2 ^ 28 / 16) = v
    rw [if_pos (by norm_num)]
    have hsplit : v % 2 ^ 28 / 16 * 16 + v % 2 ^ 28 % 16 = v % 2 ^ 28 := by
      have hdm := Nat.div_add_mod (v % 2 ^ 28) 16
      omega
    rw [hsplit]
    exact tlp_or_recompose v


namespace viua.arch

theorem Register_access.encode_lt (r : Register_access) :
    r.encode < 2 ^ 12 := by
  unfold encode
  have h1 : r.index % 2 ^ 8 < 2 ^ 8 := Nat.mod_lt _ (by norm_num)
  have h2 : (if r.direct then 1 else 0) ≤ 1 := by split <;> norm_num
  have h3 : r.set.tag ≤ 3 := by cases r.set <;> simp [REGISTER_SET.tag]
  omega

theorem REGISTER_SET.of_tag_tag (s : REGISTER_SET) :
    REGISTER_SET.of_tag s.tag = s := by
  cases s <;> rfl

theorem Register_access.decode_encode_id (r : Register_access) (h : r.wf) :
    Register_access.decode r.encode = r := by
  obtain ⟨set, direct, index⟩ := r
  unfold Register_access.wf at h
  simp only at h
  have hd : (if direct then (1:Nat) else 0) ≤ 1 := by split <;> norm_num
  have ht : set.tag ≤ 3 := by cases set <;> simp [REGISTER_SET.tag]
  unfold Register_access.decode Register_access.encode
  simp only
  rw [Register_access.mk.injEq]
  refine ⟨?_, ?_, ?_⟩
  · have h3 : (index % 2 ^ 8 + (if direct then 1 else 0) * 2 ^ 8
        + set.tag * 2 ^ 9) / 2 ^ 9 % 2 ^ 3 = set.tag := by omega
    rw [h3, REGISTER_SET.of_tag_tag]
  · have h2 : (index % 2 ^ 8 + (if direct then 1 else 0) * 2 ^ 8
        + set.tag * 2 ^ 9) / 2 ^ 8 % 2 = (if direct then 1 else 0) := by omega
    rw [h2]
    cases direct <;> rfl
  · omega

namespace ops

theorem N.decode_encode_n (i : N) (h : i.opcode < 2 ^ 16) :
    N.decode (N.encode i) = i := by
  obtain ⟨opcode⟩ := i
  unfold N.decode N.encode
  simp only at h ⊢
  rw [N.mk.injEq]
  omega

theorem S.decode_encode_s (i : S) (h : i.opcode < 2 ^ 16) (hw : i.out.wf) :
    S.decode (S.encode i) = i := by
  obtain ⟨opcode, out⟩ := i
  simp only at h hw
  have hb := out.encode_lt
  unfold S.decode S.encode
  simp only
  rw [S.mk.injEq]
  have h0 : (opcode % 2 ^ 16 + out.encode * 2 ^ 16) % 2 ^ 16 = opcode := by
    omega
  have h1 : (opcode % 2 ^ 16 + out.encode * 2 ^ 16) / 2 ^ 16 % 2 ^ 16
      = out.encode := by omega
  rw [h0, h1, out.decode_encode_id hw]
  exact ⟨rfl, rfl⟩

theorem D.decode_encode_d (i : D) (h : i.opcode < 2 ^ 16)
    (hw1 : i.out.wf) (hw2 : i.in_r.wf) :
    D.decode (D.encode i) = i := by
  obtain ⟨opcode, out, in_r⟩ := i
  simp only at h hw1 hw2
  have hb1 := out.encode_lt
  have hb2 := in_r.encode_lt
  unfold D.decode D.encode
  simp only
  rw [D.mk.injEq]
  have h0 : (opcode % 2 ^ 16 + out.encode * 2 ^ 16 + in_r.encode * 2 ^ 32)
      % 2 ^ 16 = opcode := by omega
  have h1 : (opcode % 2 ^ 16 + out.encode * 2 ^ 16 + in_r.encode * 2 ^ 32)
      / 2 ^ 16 % 2 ^ 16 = out.encode := by omega
  have h2 : (opcode % 2 ^ 16 + out.encode * 2 ^ 16 + in_r.encode * 2 ^ 32)
      / 2 ^ 32 % 2 ^ 16 = in_r.encode := by omega
  rw [h0, h1, h2, out.decode_encode_id hw1, in_r.decode_encode_id hw2]
  exact ⟨rfl, rfl, rfl⟩

theorem T.decode_encode_t (i : T) (h : i.opcode < 2 ^ 16)
    (hw1 : i.out.wf) (hw2 : i.lhs.wf) (hw3 : i.rhs.wf) :
    T.decode (T.encode i) = i := by
  obtain ⟨opcode, out, lhs, rhs⟩ := i
  simp only at h hw1 hw2 hw3
  have hb1 := out.encode_lt
  have hb2 := lhs.encode_lt
  have hb3 := rhs.encode_lt
  unfold T.decode T.encode
  simp only
  rw [T.mk.injEq]
  have h0 : (opcode % 2 ^ 16 + out.encode * 2 ^ 16 + lhs.encode * 2 ^ 32
      + rhs.encode * 2 ^ 48) % 2 ^ 16 = opcode := by omega
  have h1 : (opcode % 2 ^ 16 + out.encode * 2 ^ 16 + lhs.encode * 2 ^ 32
      + rhs.encode * 2 ^ 48) / 2 ^ 16 % 2 ^ 16 = out.encode := by omega
  have h2 : (opcode % 2 ^ 16 + out.encode * 2 ^ 16 + lhs.encode * 2 ^ 32
      + rhs.encode * 2 ^ 48) / 2 ^ 32 % 2 ^ 16 = lhs.encode := by omega
  have h3 : (opcode % 2 ^ 16 + out.encode * 2 ^ 16 + lhs.encode * 2 ^ 32
      + rhs.encode * 2 ^ 48) / 2 ^ 48 % 2 ^ 16 = rhs.encode := by omega
  rw [h0, h1, h2, h3, out.decode_encode_id hw1, lhs.decode_encode_id hw2,
    rhs.decode_encode_id hw3]
  exact ⟨rfl, rfl, rfl, rfl⟩

theorem F.decode_encode_f (i : F) (h : i.opcode < 2 ^ 16)
    (hw : i.out.wf) (hi : i.immediate < 2 ^ 32) :
    F.decode (F.encode i) = i := by
  obtain ⟨opcode, out, immediate⟩ := i
  simp only at h hw hi
  have hb := out.encode_lt
  unfold F.decode F.encode
  simp only
  rw [F.mk.injEq]
  have h0 : (opcode % 2 ^ 16 + out.encode * 2 ^ 16 + immediate % 2 ^ 32 * 2 ^ 32)
      % 2 ^ 16 = opcode := by omega
  have h1 : (opcode % 2 ^ 16 + out.encode * 2 ^ 16 + immediate % 2 ^ 32 * 2 ^ 32)
      / 2 ^ 16 % 2 ^ 16 = out.encode := by omega
  have h2 : (opcode % 2 ^ 16 + out.encode * 2 ^ 16 + immediate % 2 ^ 32 * 2 ^ 32)
      / 2 ^ 32 % 2 ^ 32 = immediate := by omega
  rw [h0, h1, h2, out.decode_encode_id hw]
  exact ⟨rfl, rfl, rfl⟩

theorem E.decode_encode_e (i : E) (h : i.opcode < 2 ^ 16)
    (hw : i.out.wf) (hi : i.immediate < 2 ^ 36) :
    E.decode (E.encode i) = i := by
  obtain ⟨opcode, out, immediate⟩ := i
  simp only at h hw hi
  have hb := out.encode_lt
  unfold E.decode E.encode
  simp only
  rw [E.mk.injEq]
  have h0 : (opcode % 2 ^ 16 + out.encode * 2 ^ 16 + immediate % 2 ^ 36 * 2 ^ 28)
      % 2 ^ 16 = opcode := by omega
  have h1 : (opcode % 2 ^ 16 + out.encode * 2 ^ 16 + immediate % 2 ^ 36 * 2 ^ 28)
      / 2 ^ 16 % 2 ^ 12 = out.encode := by omega
  have h2 : (opcode % 2 ^ 16 + out.encode * 2 ^ 16 + immediate % 2 ^ 36 * 2 ^ 28)
      / 2 ^ 28 % 2 ^ 36 = immediate := by omega
  rw [h0, h1, h2, out.decode_encode_id hw]
  exact ⟨rfl, rfl, rfl⟩

theorem R.decode_encode_r (i : R) (h : i.opcode < 2 ^ 16)
    (hw1 : i.out.wf) (hw2 : i.in_r.wf) (hi : i.immediate < 2 ^ 24) :
    R.decode (R.encode i) = i := by
  obtain ⟨opcode, out, in_r, immediate⟩ := i
  simp only at h hw1 hw2 hi
  have hb1 := out.encode_lt
  have hb2 := in_r.encode_lt
  unfold R.decode R.encode
  simp only
  rw [R.mk.injEq]
  have h0 : (opcode % 2 ^ 16 + out.encode * 2 ^ 16 + in_r.encode * 2 ^ 28
      + immediate % 2 ^ 24 * 2 ^ 40) % 2 ^ 16 = opcode := by omega
  have h1 : (opcode % 2 ^ 16 + out.encode * 2 ^ 16 + in_r.encode * 2 ^ 28
      + immediate % 2 ^ 24 * 2 ^ 40) / 2 ^ 16 % 2 ^ 12 = out.encode := by omega
  have h2 : (opcode % 2 ^ 16 + out.encode * 2 ^ 16 + in_r.encode * 2 ^ 28
      + immediate % 2 ^ 24 * 2 ^ 40) / 2 ^ 28 % 2 ^ 12 = in_r.encode := by omega
  have h3 : (opcode % 2 ^ 16 + out.encode * 2 ^ 16 + in_r.encode * 2 ^ 28
      + immediate % 2 ^ 24 * 2 ^ 40) / 2 ^ 40 % 2 ^ 24 = immediate := by omega
  rw [h0, h1, h2, h3, out.decode_encode_id hw1, in_r.decode_encode_id hw2]
  exact ⟨rfl, rfl, rfl, rfl⟩

/-- The low 16 bits of an encoded T-format word are the opcode, so the
greedy overlay can be read back off the word itself. -/
theorem T.encode_greedy (i : T) :
    T.encode i &&& GREEDY = i.opcode &&& GREEDY := by
  have hmask : ∀ x : Nat, x &&& GREEDY = x % 2 ^ 16 &&& GREEDY := by
    intro x
    have hg : (GREEDY : Nat) = 2 ^ 16 - 1 &&& GREEDY := by decide
    conv_lhs => rw [hg]
    rw [← Nat.and_assoc, Nat.and_pow_two_sub_one_eq_mod]
  have hb1 := i.out.encode_lt
  have hb2 := i.lhs.encode_lt
  have hb3 := i.rhs.encode_lt
  have hlow : T.encode i % 2 ^ 16 = i.opcode % 2 ^ 16 := by
    unfold T.encode
    omega
  rw [hmask (T.encode i), hlow, ← hmask i.opcode]

end ops

end viua.arch

/-- C3. For every instruction format in {N, S, D, T, E, R, F} and every
well-formed operand tuple of that format (16-bit opcode including its
greedy-bit overlay, 8-bit register indexes, immediate within the
format's width), decoding the encoded 64-bit word returns exactly the
original operands; and the greedy bit of the opcode survives the
encode/decode round trip unchanged (it can even be read back off the
encoded word, shown here for the T format; the other formats place the
opcode in the same bits). -/
theorem codec_round_trip :
    (∀ i : viua.arch.ops.N, i.opcode < 2 ^ 16 →
      viua.arch.ops.N.decode (viua.arch.ops.N.encode i) = i)
    ∧ (∀ i : viua.arch.ops.S, i.opcode < 2 ^ 16 → i.out.wf →
      viua.arch.ops.S.decode (viua.arch.ops.S.encode i) = i)
    ∧ (∀ i : viua.arch.ops.D, i.opcode < 2 ^ 16 → i.out.wf → i.in_r.wf →
      viua.arch.ops.D.decode (viua.arch.ops.D.encode i) = i)
    ∧ (∀ i : viua.arch.ops.T, i.opcode < 2 ^ 16 → i.out.wf → i.lhs.wf
        → i.rhs.wf →
      viua.arch.ops.T.decode (viua.arch.ops.T.encode i) = i)
    ∧ (∀ i : viua.arch.ops.E, i.opcode < 2 ^ 16 → i.out.wf
        → i.immediate < 2 ^ 36 →
      viua.arch.ops.E.decode (viua.arch.ops.E.encode i) = i)
    ∧ (∀ i : viua.arch.ops.R, i.opcode < 2 ^ 16 → i.out.wf → i.in_r.wf
        → i.immediate < 2 ^ 24 →
      viua.arch.ops.R.decode (viua.arch.ops.R.encode i) = i)
    ∧ (∀ i : viua.arch.ops.F, i.opcode < 2 ^ 16 → i.out.wf
        → i.immediate < 2 ^ 32 →
      viua.arch.ops.F.decode (viua.arch.ops.F.encode i) = i)
    ∧ (∀ i : viua.arch.ops.T,
      viua.arch.ops.T.encode i &&& viua.arch.ops.GREEDY
        = i.opcode &&& viua.arch.ops.GREEDY) := by
  refine ⟨?_, ?_, ?_, ?_, ?_, ?_, ?_, ?_⟩
  · exact fun i h => viua.arch.ops.N.decode_encode_n i h
  · exact fun i h hw => viua.arch.ops.S.decode_encode_s i h hw
  · exact fun i h h1 h2 => viua.arch.ops.D.decode_encode_d i h h1 h2
  · exact fun i h h1 h2 h3 => viua.arch.ops.T.decode_encode_t i h h1 h2 h3
  · exact fun i h hw hi => viua.arch.ops.E.decode_encode_e i h hw hi
  · exact fun i h h1 h2 hi => viua.arch.ops.R.decode_encode_r i h h1 h2 hi
  · exact fun i h hw hi => viua.arch.ops.F.decode_encode_f i h hw hi
  · exact fun i => viua.arch.ops.T.encode_greedy i

/-- Witness for C3: a concrete greedy T-format instruction round-trips,
and a concrete E-format instruction with a 36-bit immediate
round-trips. -/
theorem codec_round_trip_witness :
    ((0x9003 : Nat) < 2 ^ 16
      ∧ (viua.arch.Register_access.make_local 0xff).wf
      ∧ (viua.arch.Register_access.make_local 1).wf
      ∧ (viua.arch.Register_access.make_local 2).wf
      ∧ (0xdead : Nat) < 2 ^ 16
      ∧ (viua.arch.Register_access.make_local 7).wf
      ∧ (0xabcdef012 : Nat) < 2 ^ 36)
    ∧ viua.arch.ops.T.decode (viua.arch.ops.T.encode
        { opcode := 0x9003
        , out := viua.arch.Register_access.make_local 0xff
        , lhs := viua.arch.Register_access.make_local 1
        , rhs := viua.arch.Register_access.make_local 2 })
      = { opcode := 0x9003
        , out := viua.arch.Register_access.make_local 0xff
        , lhs := viua.arch.Register_access.make_local 1
        , rhs := viua.arch.Register_access.make_local 2 }
    ∧ viua.arch.ops.E.decode (viua.arch.ops.E.encode
        { opcode := 0xdead
        , out := viua.arch.Register_access.make_local 7
        , immediate := 0xabcdef012 })
      = { opcode := 0xdead
        , out := viua.arch.Register_access.make_local 7
        , immediate := 0xabcdef012 } :=
  ⟨⟨by decide, by decide, by decide, by decide, by decide, by decide,
    by decide⟩,
   codec_round_trip.2.2.2.1
     { opcode := 0x9003
     , out := viua.arch.Register_access.make_local 0xff
     , lhs := viua.arch.Register_access.make_local 1
     , rhs := viua.arch.Register_access.make_local 2 }
     (by decide) (by decide) (by decide) (by decide),
   codec_round_trip.2.2.2.2.1
     { opcode := 0xdead
     , out := viua.arch.Register_access.make_local 7
     , immediate := 0xabcdef012 }
     (by decide) (by decide) (by decide)⟩

/-- Witness for C2: the decomposition reconstructs the repository's own
"all bits" test value. -/
theorem to_loading_parts_unsigned_reconstructs_witness :
    ((0xdeadbeefd1adbeef : Nat) < 2 ^ 64)
    ∧ (to_loading_parts_unsigned 0xdeadbeefd1adbeef).1 <<< 28 |||
        (if (to_loading_parts_unsigned 0xdeadbeefd1adbeef).2.1.2 ≠ 0
         then (to_loading_parts_unsigned 0xdeadbeefd1adbeef).2.1.1
             * (to_loading_parts_unsigned 0xdeadbeefd1adbeef).2.1.2
           + (to_loading_parts_unsigned 0xdeadbeefd1adbeef).2.2
         else (to_loading_parts_unsigned 0xdeadbeefd1adbeef).2.1.1)
      = 0xdeadbeefd1adbeef :=
  ⟨by decide,
   to_loading_parts_unsigned_reconstructs 0xdeadbeefd1adbeef (by decide)⟩

/-- C10. Dispatching an EBREAK word leaves the entire register file
unchanged: the dispatcher hands the register file to the EBREAK executor,
which only reads it to print the dump of the non-void slots, and the loop
continues at the next word. -/
theorem ebreak_preserves_registers (registers : machine.Regs) (raw : Nat)
    (h : raw &&& viua.arch.ops.OPCODE_MASK = viua.arch.ops.OPCODE_EBREAK) :
    machine.core.ins.execute registers raw = (registers, .next)
    ∧ ∀ i, (machine.core.ins.execute registers raw).1 i = registers i := by
  have hexec : machine.core.ins.execute registers raw
      = (registers, machine.Outcome.next) := by
    simp only [machine.core.ins.execute, h]
    rfl
  exact ⟨hexec, fun i => by rw [hexec]⟩

/-- Witness for C10: dispatching the EBREAK word on the clean register
file changes nothing. -/
theorem ebreak_preserves_registers_witness :
    ((0x0002 : Nat) &&& viua.arch.ops.OPCODE_MASK
      = viua.arch.ops.OPCODE_EBREAK)
    ∧ machine.core.ins.execute machine.clean_regs 0x0002
      = (machine.clean_regs, .next)
    ∧ ∀ i, (machine.core.ins.execute machine.clean_regs 0x0002).1 i
      = machine.clean_regs i :=
  ⟨by decide,
   (ebreak_preserves_registers machine.clean_regs 0x0002 (by decide)).1,
   (ebreak_preserves_registers machine.clean_regs 0x0002 (by decide)).2⟩

/-- C5. Dispatching a DIV word never completes normally: the FORMAT::T
switch of `machine::core::ins::execute` implements only ADD and MUL, so a
DIV instruction (in particular one whose right-hand register holds zero)
hits the default case, which logs an unimplemented-instruction error and
returns the null sentinel; the register file is untouched and the run
loop terminates.  The `execute(DIV)` routine with its undefined-behaviour
division is unreachable from dispatch. -/
theorem div_by_zero_aborts (registers : machine.Regs) (raw : Nat)
    (h : raw &&& viua.arch.ops.OPCODE_MASK = viua.arch.ops.OPCODE_DIV)
    (_hzero : (registers (viua.arch.ops.T.decode raw).rhs.index).value
      = .unboxed 0) :
    machine.core.ins.execute registers raw = (registers, .fault)
    ∧ machine.Outcome.fault ≠ machine.Outcome.next
    ∧ machine.Outcome.fault ≠ machine.Outcome.halted := by
  refine ⟨?_, by decide, by decide⟩
  simp only [machine.core.ins.execute, h]
  rfl

/-- Witness for C5: a DIV word over local registers 1, 2, 3 with the
right-hand register (and every other) holding unboxed zero faults without
touching the registers. -/
theorem div_by_zero_aborts_witness :
    ((viua.arch.ops.T.encode
        { opcode := viua.arch.ops.OPCODE_DIV
        , out := viua.arch.Register_access.make_local 1
        , lhs := viua.arch.Register_access.make_local 2
        , rhs := viua.arch.Register_access.make_local 3 })
      &&& viua.arch.ops.OPCODE_MASK = viua.arch.ops.OPCODE_DIV)
    ∧ (machine.clean_regs
        (viua.arch.ops.T.decode (viua.arch.ops.T.encode
          { opcode := viua.arch.ops.OPCODE_DIV
          , out := viua.arch.Register_access.make_local 1
          , lhs := viua.arch.Register_access.make_local 2
          , rhs := viua.arch.Register_access.make_local 3 })).rhs.index).value
      = .unboxed 0
    ∧ machine.core.ins.execute machine.clean_regs
        (viua.arch.ops.T.encode
          { opcode := viua.arch.ops.OPCODE_DIV
          , out := viua.arch.Register_access.make_local 1
          , lhs := viua.arch.Register_access.make_local 2
          , rhs := viua.arch.Register_access.make_local 3 })
      = (machine.clean_regs, .fault) :=
  ⟨by decide, by decide,
   (div_by_zero_aborts machine.clean_regs
     (viua.arch.ops.T.encode
       { opcode := viua.arch.ops.OPCODE_DIV
       , out := viua.arch.Register_access.make_local 1
       , lhs := viua.arch.Register_access.make_local 2
       , rhs := viua.arch.Register_access.make_local 3 })
     (by decide) (by decide)).1⟩

/-- C6. For every ADDI or ADDIU instruction whose input operand is either
the void access or a register holding an unboxed payload `n`, the
executor writes `(n + immediate) mod 2^64` to the output register (with
`n = 0` for void), tags it Signed for ADDI and Unsigned for ADDIU, and
changes no other register. -/
theorem addi_addiu_semantics (registers : machine.Regs) (op : viua.arch.ops.R)
    (n : Nat)
    (h : op.in_r.is_void = true ∧ n = 0
      ∨ op.in_r.is_void = false
        ∧ (registers op.in_r.index).value = .unboxed n) :
    machine.core.ins.execute_ADDI registers op
      = (registers.upd op.out.index
          { type_of_unboxed := .Integer_signed
          , value := .unboxed ((n + op.immediate) % 2 ^ 64) }, .next)
    ∧ machine.core.ins.execute_ADDIU registers op
      = (registers.upd op.out.index
          { type_of_unboxed := .Integer_unsigned
          , value := .unboxed ((n + op.immediate) % 2 ^ 64) }, .next)
    ∧ (∀ j, j ≠ op.out.index →
        (machine.core.ins.execute_ADDI registers op).1 j = registers j)
    ∧ (∀ j, j ≠ op.out.index →
        (machine.core.ins.execute_ADDIU registers op).1 j = registers j) := by
  have hbase : machine.core.ins.addi_base registers op.in_r = some n := by
    unfold machine.core.ins.addi_base
    rcases h with ⟨hv, hn⟩ | ⟨hv, hn⟩
    · rw [if_pos hv, hn]
    · rw [if_neg (by simp [hv]), hn]
  have h1 : machine.core.ins.execute_ADDI registers op
      = (registers.upd op.out.index
          { type_of_unboxed := .Integer_signed
          , value := .unboxed ((n + op.immediate) % 2 ^ 64) }, .next) := by
    unfold machine.core.ins.execute_ADDI
    rw [hbase]
  have h2 : machine.core.ins.execute_ADDIU registers op
      = (registers.upd op.out.index
          { type_of_unboxed := .Integer_unsigned
          , value := .unboxed ((n + op.immediate) % 2 ^ 64) }, .next) := by
    unfold machine.core.ins.execute_ADDIU
    rw [hbase]
  refine ⟨h1, h2, ?_, ?_⟩
  · intro j hj
    rw [h1]
    unfold machine.Regs.upd
    simp [hj]
  · intro j hj
    rw [h2]
    unfold machine.Regs.upd
    simp [hj]

/-- Witness for C6: an ADDIU from the void access with immediate 42 into
local register 5 on the clean register file. -/
theorem addi_addiu_semantics_witness :
    ((viua.arch.Register_access.make_void.is_void = true ∧ (0:Nat) = 0)
      ∨ (viua.arch.Register_access.make_void.is_void = false
        ∧ (machine.clean_regs viua.arch.Register_access.make_void.index).value
          = .unboxed 0))
    ∧ machine.core.ins.execute_ADDIU machine.clean_regs
        { opcode := viua.arch.ops.OPCODE_ADDIU
        , out := viua.arch.Register_access.make_local 5
        , in_r := viua.arch.Register_access.make_void
        , immediate := 42 }
      = (machine.clean_regs.upd 5
          { type_of_unboxed := .Integer_unsigned
          , value := .unboxed ((0 + 42) % 2 ^ 64) }, .next) :=
  ⟨Or.inl ⟨by decide, rfl⟩,
   (addi_addiu_semantics machine.clean_regs
     { opcode := viua.arch.ops.OPCODE_ADDIU
     , out := viua.arch.Register_access.make_local 5
     , in_r := viua.arch.Register_access.make_void
     , immediate := 42 }
     0 (Or.inl ⟨by decide, rfl⟩)).2.1⟩

/-- C1 (failing evaluation). Executing the two-word `li` expansion of
`0xdeadbeefd0adbeef` (the repository's own "high 36 and low 24 (special
case)" test value: high 36 bits set, low 28 bits fitting 24 bits) from a
register file of Void slots terminates after both words but leaves local
register 1 holding unboxed `0xadbeef`: the ADDIU reads its void input
access as 0 and overwrites the LUIU result instead of adding to it, so
the high 36 bits are lost and register 1 does not hold the original
value. -/
theorem li_expansion_miscompiles_special_case :
    (machine.run_instruction (viua.arch.op_li_unsigned 0xdeadbeefd0adbeef)
      machine.clean_regs 0 2).2 = some 2
    ∧ (machine.run_instruction (viua.arch.op_li_unsigned 0xdeadbeefd0adbeef)
        machine.clean_regs 0 2).1 1
      = { type_of_unboxed := .Integer_unsigned, value := .unboxed 0xadbeef }
    ∧ ({ type_of_unboxed := .Integer_unsigned
       , value := .unboxed 0xadbeef } : machine.Value)
      ≠ { type_of_unboxed := .Integer_unsigned
        , value := .unboxed 0xdeadbeefd0adbeef } := by
  refine ⟨by decide, by decide, by decide⟩

namespace machine

theorem Value.unboxed_of_not_boxed (v : Value) (h : v.is_boxed = false) :
    ∃ n, v.value = .unboxed n := by
  cases hv : v.value with
  | unboxed n => exact ⟨n, rfl⟩
  | boxed b =>
    unfold Value.is_boxed at h
    rw [hv] at h
    cases h

theorem all_unboxed_upd (registers : Regs) (h : all_unboxed registers)
    (i : Nat) (v : Value) (hv : v.is_boxed = false) :
    all_unboxed (registers.upd i v) := by
  intro j
  unfold Regs.upd
  by_cases hj : j = i
  · simp [hj, hv]
  · simp [hj, h j]

theorem all_unboxed_retag (registers : Regs) (h : all_unboxed registers)
    (i : Nat) (t : Unboxed_type) :
    all_unboxed (registers.upd i
      { registers i with type_of_unboxed := t }) := by
  apply all_unboxed_upd registers h
  have hb := h i
  unfold Value.is_boxed at hb ⊢
  exact hb

namespace core.ins

theorem execute_ADD_unboxed (registers : Regs) (op : viua.arch.ops.T)
    (h : all_unboxed registers) :
    (execute_ADD registers op).2 = .next
    ∧ all_unboxed (execute_ADD registers op).1 := by
  obtain ⟨a, ha⟩ := Value.unboxed_of_not_boxed _ (h op.lhs.index)
  obtain ⟨b, hb⟩ := Value.unboxed_of_not_boxed _ (h op.rhs.index)
  unfold execute_ADD
  simp only [ha, hb]
  refine ⟨by trivial, ?_⟩
  exact all_unboxed_upd _ (all_unboxed_retag registers h _ _) _ _ rfl

theorem execute_MUL_unboxed (registers : Regs) (op : viua.arch.ops.T)
    (h : all_unboxed registers) :
    (execute_MUL registers op).2 = .next
    ∧ all_unboxed (execute_MUL registers op).1 := by
  obtain ⟨a, ha⟩ := Value.unboxed_of_not_boxed _ (h op.lhs.index)
  obtain ⟨b, hb⟩ := Value.unboxed_of_not_boxed _ (h op.rhs.index)
  unfold execute_MUL
  simp only [ha, hb]
  refine ⟨by trivial, ?_⟩
  exact all_unboxed_upd _ (all_unboxed_retag registers h _ _) _ _ rfl

theorem execute_DELETE_unboxed (registers : Regs) (op : viua.arch.ops.S)
    (h : all_unboxed registers) :
    (execute_DELETE registers op).2 = .next
    ∧ all_unboxed (execute_DELETE registers op).1 := by
  refine ⟨rfl, ?_⟩
  exact all_unboxed_upd _ h _ _ rfl

theorem execute_LUI_unboxed (registers : Regs) (op : viua.arch.ops.E)
    (h : all_unboxed registers) :
    (execute_LUI registers op).2 = .next
    ∧ all_unboxed (execute_LUI registers op).1 := by
  refine ⟨rfl, ?_⟩
  exact all_unboxed_upd _ h _ _ rfl

theorem execute_LUIU_unboxed (registers : Regs) (op : viua.arch.ops.E)
    (h : all_unboxed registers) :
    (execute_LUIU registers op).2 = .next
    ∧ all_unboxed (execute_LUIU registers op).1 := by
  refine ⟨rfl, ?_⟩
  exact all_unboxed_upd _ h _ _ rfl

theorem addi_base_unboxed (registers : Regs)
    (acc : viua.arch.Register_access) (h : all_unboxed registers) :
    ∃ n, addi_base registers acc = some n := by
  unfold addi_base
  by_cases hv : acc.is_void
  · exact ⟨0, by rw [if_pos hv]⟩
  · obtain ⟨n, hn⟩ := Value.unboxed_of_not_boxed _ (h acc.index)
    refine ⟨n, ?_⟩
    rw [if_neg hv, hn]

theorem execute_ADDI_unboxed (registers : Regs) (op : viua.arch.ops.R)
    (h : all_unboxed registers) :
    (execute_ADDI registers op).2 = .next
    ∧ all_unboxed (execute_ADDI registers op).1 := by
  obtain ⟨n, hn⟩ := addi_base_unboxed registers op.in_r h
  unfold execute_ADDI
  rw [hn]
  exact ⟨rfl, all_unboxed_upd _ h _ _ rfl⟩

theorem execute_ADDIU_unboxed (registers : Regs) (op : viua.arch.ops.R)
    (h : all_unboxed registers) :
    (execute_ADDIU registers op).2 = .next
    ∧ all_unboxed (execute_ADDIU registers op).1 := by
  obtain ⟨n, hn⟩ := addi_base_unboxed registers op.in_r h
  unfold execute_ADDIU
  rw [hn]
  exact ⟨rfl, all_unboxed_upd _ h _ _ rfl⟩

/-- On an all-unboxed register file, one dispatch step's outcome is
decided by the instruction word alone, and the register file stays
all-unboxed. -/
theorem execute_unboxed (registers : Regs) (raw : Nat)
    (h : all_unboxed registers) :
    (execute registers raw).2 = outcome_of raw
    ∧ all_unboxed (execute registers raw).1 := by
  simp only [execute, outcome_of]
  split_ifs <;>
    first
    | exact execute_ADD_unboxed registers _ h
    | exact execute_MUL_unboxed registers _ h
    | exact execute_DELETE_unboxed registers _ h
    | exact execute_LUI_unboxed registers _ h
    | exact execute_LUIU_unboxed registers _ h
    | exact execute_ADDI_unboxed registers _ h
    | exact execute_ADDIU_unboxed registers _ h
    | exact ⟨rfl, h⟩

end core.ins

end machine

/-- C4. For every greedy bundle in the instruction stream (a run of `k`
instructions each carrying the greedy bit starting at `ip`, terminated by
one without it at `ip + k`), a single `run_instruction` call started at
`ip` executes every instruction of the bundle and its terminator before
returning control to the outer loop, regardless of how `k` compares to
the preemption threshold; preemption points exist only between
`run_instruction` calls, so none falls inside the bundle.  (Stated on an
all-unboxed register file with every bundle word dispatching to a normal
continue, which is what the assembler emits.) -/
theorem greedy_bundle_single_call (text : List Nat)
    (registers : machine.Regs) (ip k fuel : Nat)
    (hregs : machine.all_unboxed registers)
    (hbundle : ∀ j, j < k →
      (text.getD (ip + j) 0) &&& viua.arch.ops.GREEDY ≠ 0
      ∧ machine.core.ins.outcome_of (text.getD (ip + j) 0) = .next)
    (hterm_greedy : (text.getD (ip + k) 0) &&& viua.arch.ops.GREEDY = 0)
    (hterm_next : machine.core.ins.outcome_of (text.getD (ip + k) 0) = .next)
    (hfuel : k + 1 ≤ fuel) :
    ∃ regs2, machine.run_instruction text registers ip fuel
      = (regs2, some (ip + k + 1)) := by
  induction k generalizing registers ip fuel with
  | zero =>
    simp only [Nat.add_zero] at hterm_greedy hterm_next
    obtain ⟨f, rfl⟩ : ∃ f, fuel = f + 1 := ⟨fuel - 1, by omega⟩
    have hstep := machine.core.ins.execute_unboxed registers
      (text.getD ip 0) hregs
    refine ⟨(machine.core.ins.execute registers (text.getD ip 0)).1, ?_⟩
    unfold machine.run_instruction
    simp only [hstep.1, hterm_next]
    rw [if_neg (fun hc => hc hterm_greedy)]
  | succ k ih =>
    obtain ⟨f, rfl⟩ : ∃ f, fuel = f + 1 := ⟨fuel - 1, by omega⟩
    have h0 := hbundle 0 (Nat.succ_pos k)
    simp only [Nat.add_zero] at h0
    have hstep := machine.core.ins.execute_unboxed registers
      (text.getD ip 0) hregs
    obtain ⟨regs2, hrun⟩ := ih
      (machine.core.ins.execute registers (text.getD ip 0)).1 (ip + 1) f
      hstep.2
      (fun j hj => by
        have hb := hbundle (j + 1) (by omega)
        rwa [show ip + (j + 1) = ip + 1 + j by omega] at hb)
      (by rwa [show ip + (k + 1) = ip + 1 + k by omega] at hterm_greedy)
      (by rwa [show ip + (k + 1) = ip + 1 + k by omega] at hterm_next)
      (by omega)
    refine ⟨regs2, ?_⟩
    unfold machine.run_instruction
    simp only [hstep.1, h0.2]
    rw [if_pos h0.1, hrun,
      show ip + 1 + k + 1 = ip + (k + 1) + 1 by omega]

/-- Witness for C4: the seven-word `li` expansion of
`0xdeadbeefdeadbeef` is a six-instruction greedy bundle terminated by a
plain ADD; one `run_instruction` call from the clean register file
consumes all seven words (three and a half times the preemption
threshold of 2). -/
theorem greedy_bundle_single_call_witness :
    (machine.all_unboxed machine.clean_regs
     ∧ (∀ j, j < 6 →
        ((viua.arch.op_li_unsigned 0xdeadbeefdeadbeef).getD (0 + j) 0)
          &&& viua.arch.ops.GREEDY ≠ 0
        ∧ machine.core.ins.outcome_of
            ((viua.arch.op_li_unsigned 0xdeadbeefdeadbeef).getD (0 + j) 0)
          = .next)
     ∧ ((viua.arch.op_li_unsigned 0xdeadbeefdeadbeef).getD (0 + 6) 0)
        &&& viua.arch.ops.GREEDY = 0
     ∧ machine.core.ins.outcome_of
        ((viua.arch.op_li_unsigned 0xdeadbeefdeadbeef).getD (0 + 6) 0)
       = .next
     ∧ 6 + 1 ≤ 7)
    ∧ ∃ regs2, machine.run_instruction
        (viua.arch.op_li_unsigned 0xdeadbeefdeadbeef)
        machine.clean_regs 0 7
      = (regs2, some (0 + 6 + 1)) :=
  ⟨⟨fun _ => rfl, by decide, by decide, by decide, by decide⟩,
   greedy_bundle_single_call (viua.arch.op_li_unsigned 0xdeadbeefdeadbeef)
     machine.clean_regs 0 6 7 (fun _ => rfl) (by decide) (by decide)
     (by decide) (by decide)⟩

theorem shiftLeft32_or_eq_add (a b : Nat) (hb : b < 2 ^ 32) :
    a <<< 32 ||| b = a * 2 ^ 32 + b := by
  rw [Nat.shiftLeft_eq, Nat.mul_comm a (2 ^ 32)]
  exact (Nat.mul_add_lt_is_or hb a).symm

/-- C7 (amended). The relocation table built from an emitted text stream
is exactly the one the spec describes, with the symbol-table index
truncated to its low 32 bits: one entry per CALL or ATOM instruction at
index `i`, at byte offset `8 * (i - 2)` (hence 8-byte aligned), with the
index formed from the two preceding F-format immediates (upper then
lower 32 bits) reduced mod `2 ^ 32`, of kind JUMP_SLOT for CALL and
OBJECT for ATOM. -/
theorem make_reloc_table_matches_spec (text : List Nat) :
    stage.make_reloc_table text = stage.reloc_table_spec text := by
  unfold stage.make_reloc_table stage.reloc_table_spec
  apply List.filterMap_congr
  intro i _
  unfold stage.reloc_at
  simp only
  have hlo : ∀ w : Nat, (viua.arch.ops.F.decode w).immediate < 2 ^ 32 := by
    intro w
    unfold viua.arch.ops.F.decode
    exact Nat.mod_lt _ (by norm_num)
  by_cases hcall : (text.getD i 0) &&& viua.arch.ops.OPCODE_MASK
      = viua.arch.ops.OPCODE_CALL
  · rw [if_pos hcall, if_pos (Or.inl hcall), if_pos hcall,
      shiftLeft32_or_eq_add _ _ (hlo (text.getD (i - 1) 0)),
      Nat.mul_comm (i - 2) 8]
  · by_cases hatom : (text.getD i 0) &&& viua.arch.ops.OPCODE_MASK
        = viua.arch.ops.OPCODE_ATOM
    · rw [if_neg hcall, if_pos hatom, if_pos (Or.inr hatom), if_neg hcall,
        shiftLeft32_or_eq_add _ _ (hlo (text.getD (i - 1) 0)),
        Nat.mul_comm (i - 2) 8]
    · rw [if_neg hcall, if_neg hatom,
        if_neg (fun hor => hor.elim hcall hatom)]

/-- Counterexample to C7 as stated: a text stream whose two F-format
carrier words hold upper immediate 1 and lower immediate 0 before a
CALL.  The emitted relocation's symbol-table index is the truncated
value 0, not the 64-bit combination `2 ^ 32` the claim requires (the two
`r_info` values differ). -/
theorem make_reloc_table_truncates_symbol_index :
    stage.make_reloc_table
      [ viua.arch.ops.F.encode
          { opcode := viua.arch.ops.OPCODE_FLOAT
          , out := viua.arch.Register_access.make_local 1
          , immediate := 1 }
      , viua.arch.ops.F.encode
          { opcode := viua.arch.ops.OPCODE_FLOAT
          , out := viua.arch.Register_access.make_local 1
          , immediate := 0 }
      , viua.arch.ops.D.encode
          { opcode := viua.arch.ops.OPCODE_CALL
          , out := viua.arch.Register_access.make_void
          , in_r := viua.arch.Register_access.make_void } ]
      = [ { r_offset := 0
          , r_info := stage.ELF64_R_INFO 0 stage.R_VIUA_JUMP_SLOT } ]
    ∧ ((viua.arch.ops.F.decode (viua.arch.ops.F.encode
          { opcode := viua.arch.ops.OPCODE_FLOAT
          , out := viua.arch.Register_access.make_local 1
          , immediate := 1 })).immediate <<< 32
        ||| (viua.arch.ops.F.decode (viua.arch.ops.F.encode
          { opcode := viua.arch.ops.OPCODE_FLOAT
          , out := viua.arch.Register_access.make_local 1
          , immediate := 0 })).immediate)
      = 2 ^ 32
    ∧ stage.ELF64_R_INFO (2 ^ 32) stage.R_VIUA_JUMP_SLOT
      ≠ stage.ELF64_R_INFO 0 stage.R_VIUA_JUMP_SLOT := by
  refine ⟨by decide, by decide, by decide⟩

theorem find_entry_point_from_cons_some (f : String) (a : stage.Fn_def)
    (l : List stage.Fn_def) :
    stage.find_entry_point_from (some f) (a :: l)
      = if a.has_attr "entry_point"
        then Except.error { duplicate := a.name, first := f }
        else stage.find_entry_point_from (some f) l := rfl

theorem find_entry_point_from_cons_none (a : stage.Fn_def)
    (l : List stage.Fn_def) :
    stage.find_entry_point_from none (a :: l)
      = if a.has_attr "entry_point"
        then stage.find_entry_point_from (some a.name) l
        else stage.find_entry_point_from none l := rfl

theorem find_entry_point_from_some (f : String) (nodes : List stage.Fn_def) :
    ((nodes.filter fun fn => fn.has_attr "entry_point") = [] →
      stage.find_entry_point_from (some f) nodes = .ok (some f))
    ∧ ((nodes.filter fun fn => fn.has_attr "entry_point") ≠ [] →
      ∃ e, stage.find_entry_point_from (some f) nodes = .error e) := by
  induction nodes with
  | nil => exact ⟨fun _ => rfl, fun hne => absurd rfl hne⟩
  | cons a l ih =>
    by_cases ha : a.has_attr "entry_point"
    · refine ⟨fun hnil => ?_, fun _ => ?_⟩
      · simp [List.filter_cons, ha] at hnil
      · exact ⟨{ duplicate := a.name, first := f },
          by rw [find_entry_point_from_cons_some, if_pos ha]⟩
    · have hfil : ((a :: l).filter fun fn => fn.has_attr "entry_point")
          = l.filter fun fn => fn.has_attr "entry_point" := by
        simp [List.filter_cons, ha]
      rw [hfil, find_entry_point_from_cons_some, if_neg ha]
      exact ih

/-- C8. For every parsed list of function definitions: if two or more of
them carry the `entry_point` attribute, `find_entry_point` raises the
fatal `Duplicated_entry_point` diagnostic (an error, so assembly
terminates with no output); if at most one carries it, detection
succeeds and returns that function\x27s name (or none). -/
theorem find_entry_point_detects_duplicates (nodes : List stage.Fn_def) :
    (2 ≤ (nodes.filter fun fn => fn.has_attr "entry_point").length →
      ∃ e, stage.find_entry_point nodes = .error e)
    ∧ ((nodes.filter fun fn => fn.has_attr "entry_point").length ≤ 1 →
      stage.find_entry_point nodes
        = .ok (((nodes.filter fun fn => fn.has_attr "entry_point").head?).map
            stage.Fn_def.name)) := by
  unfold stage.find_entry_point
  induction nodes with
  | nil => exact ⟨fun h => absurd h (by decide), fun _ => rfl⟩
  | cons a l ih =>
    by_cases ha : a.has_attr "entry_point"
    · have hfil : ((a :: l).filter fun fn => fn.has_attr "entry_point")
          = a :: (l.filter fun fn => fn.has_attr "entry_point") := by
        simp [List.filter_cons, ha]
      rw [hfil, find_entry_point_from_cons_none, if_pos ha]
      refine ⟨fun h2 => ?_, fun h1 => ?_⟩
      · apply (find_entry_point_from_some a.name l).2
        intro hnil
        rw [List.length_cons, hnil] at h2
        simp at h2
      · have hnil : (l.filter fun fn => fn.has_attr "entry_point") = [] := by
          rw [List.length_cons] at h1
          exact List.length_eq_zero.mp (by omega)
        rw [(find_entry_point_from_some a.name l).1 hnil]
        rfl
    · have hfil : ((a :: l).filter fun fn => fn.has_attr "entry_point")
          = l.filter fun fn => fn.has_attr "entry_point" := by
        simp [List.filter_cons, ha]
      rw [hfil, find_entry_point_from_cons_none, if_neg ha]
      exact ih

/-- Witness for C8: two functions with `[[entry_point]]` are a fatal
diagnostic; one function with it (next to one without) is found and
returned by name. -/
theorem find_entry_point_detects_duplicates_witness :
    (2 ≤ ([ { name := "main", attrs := ["entry_point"] }
          , { name := "other", attrs := ["entry_point"] } ].filter
            fun fn : stage.Fn_def => fn.has_attr "entry_point").length
     ∧ ∃ e, stage.find_entry_point
        [ { name := "main", attrs := ["entry_point"] }
        , { name := "other", attrs := ["entry_point"] } ] = .error e)
    ∧ (([ { name := "main", attrs := ["entry_point"] }
        , { name := "helper", attrs := [] } ].filter
          fun fn : stage.Fn_def => fn.has_attr "entry_point").length ≤ 1
     ∧ stage.find_entry_point
        [ { name := "main", attrs := ["entry_point"] }
        , { name := "helper", attrs := [] } ]
       = .ok ((([ { name := "main", attrs := ["entry_point"] }
                , { name := "helper", attrs := [] } ].filter
            fun fn : stage.Fn_def => fn.has_attr "entry_point").head?).map
            stage.Fn_def.name)) :=
  ⟨⟨by decide,
    (find_entry_point_detects_duplicates
      [ { name := "main", attrs := ["entry_point"] }
      , { name := "other", attrs := ["entry_point"] } ]).1 (by decide)⟩,
   ⟨by decide,
    (find_entry_point_detects_duplicates
      [ { name := "main", attrs := ["entry_point"] }
      , { name := "helper", attrs := [] } ]).2 (by decide)⟩⟩

/-- C9. If the AA executor aborts because the input register does not
hold an unsigned 64-bit value, the abort happens before any mutation:
the process's stack break, its recorded pointer list, the frame's saved
stack-break watermark, and the output register are all exactly as they
were before the failed execution. -/
theorem aa_abort_is_atomic (stack : viua.vm.ins.Stack)
    (op : viua.vm.ins.AA) (ip : Nat)
    (h : (viua.vm.ins.fetch_proxy stack op.in_r).get_u64 = none) :
    viua.vm.ins.execute_AA stack op ip
      = (stack, some { ip := ip
                     , message := "invalid operand type for aa instruction" })
    ∧ (viua.vm.ins.execute_AA stack op ip).1.proc.stack_break
      = stack.proc.stack_break
    ∧ (viua.vm.ins.execute_AA stack op ip).1.proc.pointers
      = stack.proc.pointers
    ∧ (viua.vm.ins.execute_AA stack op ip).1.frame.saved_sbrk
      = stack.frame.saved_sbrk
    ∧ ∀ j, (viua.vm.ins.execute_AA stack op ip).1.frame.registers j
      = stack.frame.registers j := by
  have hx : viua.vm.ins.execute_AA stack op ip
      = (stack, some { ip := ip
                     , message := "invalid operand type for aa instruction" }) := by
    unfold viua.vm.ins.execute_AA
    rw [h]
  exact ⟨hx, by rw [hx], by rw [hx], by rw [hx], fun j => by rw [hx]⟩

/-- Witness for C9: an AA whose input register holds a signed value
aborts and leaves the stack (break 100, one pointer at 10, saved
watermark 100, all registers) untouched. -/
theorem aa_abort_is_atomic_witness :
    ((viua.vm.ins.fetch_proxy
        { proc := { stack_break := 100, pointers := [{ ptr := 10 }] }
        , frame := { saved_sbrk := 100
                   , registers := fun _ => .signed 7 } }
        ({ out := viua.arch.Register_access.make_local 1
         , in_r := viua.arch.Register_access.make_local 2
         , spec := 0 } : viua.vm.ins.AA).in_r).get_u64 = none)
    ∧ viua.vm.ins.execute_AA
        { proc := { stack_break := 100, pointers := [{ ptr := 10 }] }
        , frame := { saved_sbrk := 100
                   , registers := fun _ => .signed 7 } }
        { out := viua.arch.Register_access.make_local 1
        , in_r := viua.arch.Register_access.make_local 2
        , spec := 0 } 5
      = ({ proc := { stack_break := 100, pointers := [{ ptr := 10 }] }
         , frame := { saved_sbrk := 100
                    , registers := fun _ => .signed 7 } },
         some { ip := 5
              , message := "invalid operand type for aa instruction" }) :=
  ⟨rfl,
   (aa_abort_is_atomic
     { proc := { stack_break := 100, pointers := [{ ptr := 10 }] }
     , frame := { saved_sbrk := 100, registers := fun _ => .signed 7 } }
     { out := viua.arch.Register_access.make_local 1
     , in_r := viua.arch.Register_access.make_local 2
     , spec := 0 } 5 rfl).1⟩
